import Mathlib

/-!
Verification of the document-preparation and retrieval pipeline of the
AI_QUIZ repository, against its natural-language specification.

The JavaScript sources are shallowly embedded: strings are `List Char`,
the regex-based splitting/cleaning code is translated into explicit
character scanners with the same behaviour, machine floats used only for
page-number interpolation are modelled as exact rationals, and calls to
external processes (the Python bridge, Qdrant, OpenAI) are modelled as
oracle parameters.  Each definition names the source function it embeds.
-/

set_option maxRecDepth 10000
abbrev Str := List Char

/-- JS `\s` (ASCII part): whitespace class used by `split(/\s+/)`, `trim`,
blank-line splitting and sentence splitting in the chunker sources. -/
def isWs (c : Char) : Bool :=
  c = ' ' || c = '\t' || c = '\n' || c = '\r' || c = '\x0b' || c = '\x0c'

/-- Helper for string splitters: push a character onto the front of the
first piece (used to build pieces left-to-right). -/
def consHead (c : Char) : List Str → List Str
  | [] => [[c]]
  | h :: t => (c :: h) :: t

/-- `text.split(/\s+/)` : split on maximal whitespace runs, keeping empty
edge pieces exactly as the JS regex split does ("a " → ["a",""]).
The Bool state records whether we are inside a separator run. -/
def splitWsGo : Bool → Str → List Str
  | _, [] => [[]]
  | inRun, c :: rest =>
    if isWs c then
      if inRun then splitWsGo true rest
      else [] :: splitWsGo true rest
    else consHead c (splitWsGo false rest)

def splitWs (l : Str) : List Str := splitWsGo false l

/-- `TextChunker.estimateTokenCount` (textChunker.js:286-290):
`Math.ceil(text.split(/\s+/).length / 0.75)`, i.e. ceil(4w/3). -/
def estimateTokenCount (l : Str) : Nat := (4 * (splitWs l).length + 2) / 3

/-- `.` `!` `?` : the sentence-ending characters of the lookbehind in
`chunk.split(/(?<=[.!?])\s+/)` (textChunker.js:122, 139). -/
def isSentEnd (c : Char) : Bool := c = '.' || c = '!' || c = '?'

def headIsWs : Str → Bool
  | [] => false
  | d :: _ => isWs d

/-- `chunk.split(/(?<=[.!?])\s+/)` : split at whitespace runs that
immediately follow `.`, `!` or `?`; the punctuation stays with the left
piece.  `skip` records that we are consuming a separator run. -/
def splitSentGo : Bool → Str → List Str
  | _, [] => [[]]
  | skip, c :: rest =>
    if skip && isWs c then splitSentGo true rest
    else if isSentEnd c && headIsWs rest then [c] :: splitSentGo true rest
    else consHead c (splitSentGo false rest)

def splitSentences (l : Str) : List Str := splitSentGo false l

/-- Does the leading whitespace run of `l` contain a newline?  This is the
lookahead deciding whether a `\n` starts a `\n\s*\n` paragraph break. -/
def hasNlLead (l : Str) : Bool := (l.takeWhile isWs).contains '\n'

/-- `text.split(/\n\s*\n/)` (textChunker.js:53): a break starts at a `\n`
whose following whitespace run contains another `\n`; the match extends
to the last `\n` of that run (regex backtracking), so trailing non-newline
whitespace of the run stays with the right piece. -/
def spGo : Bool → Str → List Str
  | _, [] => [[]]
  | true, _ :: rest => spGo (hasNlLead rest) rest
  | false, c :: rest =>
    if c = '\n' && hasNlLead rest then [] :: spGo true rest
    else consHead c (spGo false rest)

def splitParas (l : Str) : List Str := spGo false l

/-- JS `String.prototype.trim()` on the ASCII whitespace class. -/
def trimChars (l : Str) : Str :=
  ((l.dropWhile isWs).reverse.dropWhile isWs).reverse

def isUpperA (c : Char) : Bool := 'A' ≤ c && c ≤ 'Z'
def isLowerA (c : Char) : Bool := 'a' ≤ c && c ≤ 'z'
def isDigitA (c : Char) : Bool := '0' ≤ c && c ≤ '9'

/-- Third alternative of the header regex: `\d+\.\s*[A-Z].*` — a digit run,
a dot, optional whitespace, then an ASCII capital. -/
def headerAlt3 (p : Str) : Bool :=
  let ds := p.takeWhile isDigitA
  if ds.isEmpty then false
  else
    match p.drop ds.length with
    | '.' :: r2 =>
      match r2.dropWhile isWs with
      | u :: _ => isUpperA u
      | [] => false
    | _ => false

/-- `paragraph.match(/^(#{1,6}.*|[A-Z][^.]*:|\d+\.\s*[A-Z].*)/)`
(textChunker.js:61): markdown heading, capitalized "Label:" with no dot
before the colon, or a numbered-section head. -/
def headerMatch (p : Str) : Bool :=
  match p with
  | [] => false
  | c :: rest =>
    c = '#' || (isUpperA c && (rest.takeWhile (fun d => d ≠ '.')).contains ':')
      || headerAlt3 p

/-- Two newlines: the separator used when concatenating paragraphs and
merging chunks (`'\n\n'`). -/
def nn : Str := ['\n', '\n']

/-- Loop body of `TextChunker.semanticChunking` (textChunker.js:57-73):
skip blank paragraphs; a header paragraph starts a new chunk when one
already exists; otherwise append to the last chunk (or start the first). -/
def semanticStep (chunks : List Str) (p : Str) : List Str :=
  let t := trimChars p
  if t.isEmpty then chunks
  else if headerMatch p && !chunks.isEmpty then chunks ++ [t]
  else
    match chunks.getLast? with
    | some last => chunks.dropLast ++ [last ++ nn ++ t]
    | none => [t]

/-- `TextChunker.semanticChunking` (textChunker.js:51-76). -/
def semanticChunking (text : Str) : List Str :=
  ((splitParas text).foldl semanticStep []).filter (fun c => !c.isEmpty)

/-- `currentChunk + (currentChunk ? ' ' : '') + sentence`
(textChunker.js:128). -/
def joinSp (cur s : Str) : Str := cur ++ (if cur.isEmpty then [] else [' ']) ++ s

/-- `Math.ceil(overlap / 10)` (textChunker.js:139). -/
def nCeil10 (overlap : Nat) : Nat := (overlap + 9) / 10

/-- `array.slice(-n)`: the last `n` elements; `slice(-0)` is `slice(0)`,
the whole array, exactly as in JS. -/
def overlapSlice (ss : List Str) (n : Nat) : List Str :=
  if n = 0 then ss else ss.drop (ss.length - n)

/-- The overlap buffer built at an emission step (textChunker.js:139-140):
the last `ceil(overlap/10)` sentences of the chunk body just emitted,
joined by single spaces. -/
def mkBuf (overlap : Nat) (cur : Str) : Str :=
  List.intercalate [' '] (overlapSlice (splitSentences cur) (nCeil10 overlap))

/-- `overlapBuffer ? overlapBuffer + ' ' + currentChunk : currentChunk`
(textChunker.js:132-136, 148-153). -/
def emitWith (buf cur : Str) : Str := if buf.isEmpty then cur else buf ++ [' '] ++ cur

/-- The sentence loop of `TextChunker.splitLargeChunk`
(textChunker.js:127-154), with state (emitted chunks, current chunk,
overlap buffer). -/
def slcLoop (maxT overlap : Nat) : List Str → List Str → Str → Str → List Str
  | [], chunks, cur, buf =>
    if cur.isEmpty then chunks else chunks ++ [emitWith buf cur]
  | s :: ss, chunks, cur, buf =>
    let test := joinSp cur s
    if estimateTokenCount test > maxT && !cur.isEmpty then
      slcLoop maxT overlap ss (chunks ++ [emitWith buf cur]) s (mkBuf overlap cur)
    else slcLoop maxT overlap ss chunks test buf

/-- `TextChunker.splitLargeChunk` (textChunker.js:121-157). -/
def splitLargeChunk (chunk : Str) (maxT overlap : Nat) : List Str :=
  slcLoop maxT overlap (splitSentences chunk) [] [] []

/-- The same loop recording only the chunk bodies (the `currentChunk`
values at emission time), without the overlap prefixes. -/
def bodiesLoop (maxT : Nat) : List Str → List Str → Str → List Str
  | [], bodies, cur => if cur.isEmpty then bodies else bodies ++ [cur]
  | s :: ss, bodies, cur =>
    let test := joinSp cur s
    if estimateTokenCount test > maxT && !cur.isEmpty then
      bodiesLoop maxT ss (bodies ++ [cur]) s
    else bodiesLoop maxT ss bodies test

def splitBodies (chunk : Str) (maxT : Nat) : List Str :=
  bodiesLoop maxT (splitSentences chunk) [] []

/-- Reassemble `splitLargeChunk`'s output from its bodies: the first body
is emitted bare, and every later body is prefixed (when nonempty) by the
overlap window taken from the previous body. -/
def reconFrom (overlap : Nat) (buf : Str) : List Str → List Str
  | [] => []
  | b :: bs => emitWith buf b :: reconFrom overlap (mkBuf overlap b) bs

/-- `Config.CHUNK_CONFIG` (config.js:52-58): `maxTokens`, `overlap`,
`minTokens` are read from the environment with defaults 500/50/50 and are
not validated anywhere. -/
structure ChunkConfig where
  maxTokens : Nat
  overlap : Nat
  minTokens : Nat

def defaultChunkConfig : ChunkConfig := ⟨500, 50, 50⟩

/-- Loop body of `TextChunker.optimizeChunkSizes` (textChunker.js:88-112):
in-range chunks pass through; oversized chunks are sentence-split; small
chunks merge into the previous chunk only if the merge stays within
`maxTokens`, else (or when first) they are kept as they are. -/
def optimizeStep (cfg : ChunkConfig) (acc : List Str) (chunk : Str) : List Str :=
  let tc := estimateTokenCount chunk
  if tc ≤ cfg.maxTokens ∧ tc ≥ cfg.minTokens then acc ++ [chunk]
  else if tc > cfg.maxTokens then acc ++ splitLargeChunk chunk cfg.maxTokens cfg.overlap
  else if tc < cfg.minTokens ∧ acc ≠ [] then
    match acc.getLast? with
    | some last =>
      if estimateTokenCount (last ++ nn ++ chunk) ≤ cfg.maxTokens then
        acc.dropLast ++ [last ++ nn ++ chunk]
      else acc ++ [chunk]
    | none => acc ++ [chunk]
  else acc ++ [chunk]

/-- `TextChunker.optimizeChunkSizes` (textChunker.js:82-115). -/
def optimizeChunkSizes (cfg : ChunkConfig) (chunks : List Str) : List Str :=
  chunks.foldl (optimizeStep cfg) []

/-- A chunk record as produced by `TextChunker.addMetadata`
(textChunker.js:168-179). -/
structure Chunk where
  content : Str
  index : Nat
  tokenCount : Nat
  pageNumber : Nat
  chunkId : String

/-- `TextChunker.addMetadata` (textChunker.js:163-180).  The float page
interpolation is modelled with exact rationals; `now` is the value of
`Date.now()` at the run (the ambient clock made explicit), which the code
bakes into every `chunkId`. -/
def addMetadata (chunks : List Str) (pageCount : Nat) (now : Nat) : List Chunk :=
  let total := chunks.foldl (fun t c => t + estimateTokenCount c) 0
  let perPage : ℚ := (total : ℚ) / (pageCount : ℚ)
  chunks.enum.map (fun ic =>
    let tc := estimateTokenCount ic.2
    let estPage : Nat := (⌈((ic.1 * tc : Nat) : ℚ) / perPage⌉).toNat
    { content := ic.2
      index := ic.1
      tokenCount := tc
      pageNumber := min (if estPage = 0 then 1 else estPage) pageCount
      chunkId := "chunk_" ++ toString ic.1 ++ "_" ++ toString now })

/-- `TextChunker.createChunks` (textChunker.js:22-45).  The optional
LLM-validation pass (`validateChunks`) always returns its input chunks
unchanged (applyValidationResults only logs), so the pipeline is
semanticChunking → optimizeChunkSizes → addMetadata. -/
def createChunks (cfg : ChunkConfig) (text : Str) (pageCount now : Nat) : List Chunk :=
  addMetadata (optimizeChunkSizes cfg (semanticChunking text)) pageCount now

/-- A 15-word sentence ending in `z.` used to build the 300-token
scenario paragraph of the specification. -/
def c6Sent (tag : String) : String := tag ++ " a a a a a a a a a a a a a z."

def c6Tags : List String :=
  ["t0", "t1", "t2", "t3", "t4", "t5", "t6", "t7", "t8", "t9",
   "u0", "u1", "u2", "u3", "u4"]

def c6Sents : List String := c6Tags.map c6Sent

/-- Single paragraph of 15 sentences × 15 words = 225 words,
estimated at exactly 300 tokens. -/
def c6Para : String := String.intercalate " " c6Sents

/-- Sentences `i..i+n-1` of the scenario paragraph, joined by spaces. -/
def c6Slice (i n : Nat) : String := String.intercalate " " ((c6Sents.drop i).take n)

/-- Do two chunks share a (nonempty) full sentence? -/
def sharesSentence (a b : Str) : Bool :=
  (splitSentences a).any (fun s => !s.isEmpty && (splitSentences b).contains s)

/-- Counterexample text for C1: a tiny first paragraph followed by a
markdown-header paragraph of 37 words (≈ 50 tokens, in range). -/
def c1Text : String := "hi\n\n# " ++ String.intercalate " " (List.replicate 36 "a")

/-- Witness text for C1: a single 37-word paragraph, estimated at exactly
50 tokens, inside the default `[50, 500]` bounds. -/
def c1Good : String := String.intercalate " " (List.replicate 37 "a")

/-- Counterexample configuration for C5: `minTokens = 50 > maxTokens = 10`. -/
def c5Bad : ChunkConfig := ⟨10, 5, 50⟩

def c5Text : String := "a b\n\n# c d"

/-! ### Vector search, embedding and retrieval services -/

/-- A search hit / stored point as handled by the vector-search layer:
point id, owning document id, similarity score, chunk content, page
number, ordinal index.  Scores are floats in the source, modelled as
exact rationals; the similarity computation itself lives in the external
engine, so each stored point carries the score assigned to it for the
query at hand. -/
structure QPoint where
  id : String
  docId : String
  score : ℚ
  content : String
  page : Nat
  idx : Nat

/-- The canned corpus of `VectorSearchService._getMockSearchResults`
(python-bridge vectorSearchService.js with mock support, lines 118-128). -/
def mockContent : List String :=
  ["Artificial Intelligence (AI) is the simulation of human intelligence processes by machines, especially computer systems.",
   "Machine Learning is a subset of AI that enables systems to learn and improve from experience without being explicitly programmed.",
   "Deep Learning is a subset of machine learning that uses neural networks with multiple layers.",
   "Natural Language Processing enables computers to understand, interpret, and generate human language.",
   "Computer Vision is a field of AI that enables computers to derive meaningful information from digital images.",
   "Neural Networks are computing systems inspired by the biological neural networks that constitute animal brains.",
   "Reinforcement Learning is an area of machine learning where agents learn to make decisions by taking actions.",
   "Supervised Learning is a type of machine learning where the model is trained on labeled data."]

/-- `VectorSearchService._getMockSearchResults(documentId, topK)`
(lines 130-142): `min(topK, 8)` fabricated results with ids
`mock_chunk_i` and scores `0.95 - 0.05 * i`. -/
def mockSearchResults (documentId : Option String) (topK : Nat) : List QPoint :=
  (List.range (min topK mockContent.length)).map (fun (i : Nat) =>
    { id := "mock_chunk_" ++ toString i
      docId := documentId.getD "mock_doc"
      score := ((95 : ℚ) - 5 * (i : ℚ)) / 100
      content := mockContent.getD i ""
      page := i / 2 + 1
      idx := i })

/-- Stable insertion step for descending-score ranking. -/
def insertScore (p : QPoint) : List QPoint → List QPoint
  | [] => [p]
  | q :: qs => if p.score ≤ q.score then q :: insertScore p qs else p :: q :: qs

/-- Rank points by descending score (the order the vector store returns). -/
def sortByScoreDesc (l : List QPoint) : List QPoint := l.foldr insertScore []

/-- Modelled from the spec: the external Qdrant `search` operation.  The
engine itself (the Python `vector_search/qdrant_client.py` script and the
`@qdrant/js-client-rest` service) is not part of src/, so its contract is
taken from §4.4 of the spec: apply the optional metadata (document id)
filter, exclude results scoring below the optional `score_threshold`,
rank by descending score, truncate to `limit`. -/
def matchesDoc (docFilter : Option String) (p : QPoint) : Bool :=
  match docFilter with
  | some d => p.docId = d
  | none => true

def passesThreshold (threshold : Option ℚ) (p : QPoint) : Bool :=
  match threshold with
  | some t => t ≤ p.score
  | none => true

def qdrantSearch (db : List QPoint) (limit : Nat) (threshold : Option ℚ)
    (docFilter : Option String) : List QPoint :=
  (sortByScoreDesc
    ((db.filter (matchesDoc docFilter)).filter (passesThreshold threshold))).take limit

/-- Options of `VectorDatabaseService.searchSimilar`
(vectorDatabaseService.js:139-172), whose destructuring defaults are
`limit = 10`, `scoreThreshold = 0.7`, `filter = null`; the float literal
`0.7` is modelled as `7/10`. -/
structure SearchOptions where
  limit : Nat
  scoreThreshold : ℚ
  docFilter : Option String

def defaultSearchOptions : SearchOptions := ⟨10, 7 / 10, none⟩

/-- `VectorDatabaseService.searchSimilar` (vectorDatabaseService.js:139-172):
always forwards `score_threshold` (its default included) and the filter
to the store's search. -/
def searchSimilar (db : List QPoint) (opts : SearchOptions) : List QPoint :=
  qdrantSearch db opts.limit (some opts.scoreThreshold) opts.docFilter

/-- Ambient state of the mock-aware `VectorSearchService` (python-bridge
variant): `mockMode` is `OPENAI_API_KEY === 'mock'`; `bridgeOk` says
whether the spawned Python call succeeds; `db` is the scored point set
the underlying Qdrant search draws from. -/
structure VSCtx where
  mockMode : Bool
  bridgeOk : Bool
  db : List QPoint

/-- `VectorSearchService.searchSimilarChunks` (mock-aware variant,
lines 41-67): in mock mode return canned results; otherwise run the
Python Qdrant search, pushing `--threshold` only when
`scoreThreshold > 0`; when the bridge call throws, fall back to the same
canned mock results. -/
def searchSimilarChunks (ctx : VSCtx) (documentId : Option String)
    (topK : Nat) (scoreThreshold : ℚ) : List QPoint :=
  if ctx.mockMode then mockSearchResults documentId topK
  else if ctx.bridgeOk then
    qdrantSearch ctx.db topK
      (if 0 < scoreThreshold then some scoreThreshold else none) documentId
  else mockSearchResults documentId topK

/-- A chunk as handed to the embedding bridge (only the content matters
for the embedding contract). -/
structure JChunk where
  content : String

/-- A chunk with an optionally attached embedding
(`{ ...chunk, embedding }` in JS; `none` = no embedding attached). -/
structure EChunk where
  chunk : JChunk
  embedding : Option (List ℚ)

/-- Ambient state of the mock-aware `EmbeddingService` (python-bridge
variant): `mockMode` is `OPENAI_API_KEY === 'mock'`; `bridgeOk` says
whether the spawned Python call succeeds; `embedResult` / `queryResult`
are the parsed `result.embeddings` / `result.embedding` fields (`none` =
field absent); `mock` and `mockQuery` are the successive outputs of
`_generateMockEmbedding()`, whose `Math.random`-based normalized
384-vectors are nondeterministic and therefore oracle inputs here. -/
structure EmbCtx where
  mockMode : Bool
  bridgeOk : Bool
  embedResult : List JChunk → Option (List EChunk)
  queryResult : String → Option (List ℚ)
  mock : Nat → List ℚ
  mockQuery : List ℚ

/-- `chunks.map(chunk => ({ ...chunk, embedding: this._generateMockEmbedding() }))`
— one fresh mock vector per chunk, in call order. -/
def attachMockEmbeddings (ctx : EmbCtx) (chunks : List JChunk) : List EChunk :=
  chunks.enum.map (fun ic => ⟨ic.2, some (ctx.mock ic.1)⟩)

/-- `EmbeddingService.generateChunkEmbeddings` (mock-aware variant,
lines 19-43): mock mode returns mock embeddings; a successful bridge call
returns `result.embeddings || chunks` (the original chunks, without
embeddings, when the field is missing); a bridge error falls back to
mock embeddings. -/
def generateChunkEmbeddings (ctx : EmbCtx) (chunks : List JChunk) : List EChunk :=
  if ctx.mockMode then attachMockEmbeddings ctx chunks
  else if ctx.bridgeOk then
    match ctx.embedResult chunks with
    | some es => es
    | none => chunks.map (fun c => ⟨c, none⟩)
  else attachMockEmbeddings ctx chunks

/-- `EmbeddingService.generateQueryEmbedding` (mock-aware variant,
lines 48-64): mock mode returns a mock vector; a successful bridge call
returns `result.embedding || mock`; a bridge error returns a mock
vector. -/
def generateQueryEmbedding (ctx : EmbCtx) (query : String) : List ℚ :=
  if ctx.mockMode then ctx.mockQuery
  else if ctx.bridgeOk then (ctx.queryResult query).getD ctx.mockQuery
  else ctx.mockQuery

/-- `Config.EMBEDDING_MODEL.maxTokens` (config.js:34). -/
def embeddingMaxTokens : Nat := 512

/-- `Config.EMBEDDING_MODEL.prefix.passage` (config.js:37). -/
def passageMarker : Str := "passage: ".data

/-- `Config.EMBEDDING_MODEL.prefix.query` (config.js:36). -/
def queryMarker : Str := "query: ".data

/-- `EmbeddingService.prepareTextForEmbedding` (E5 embeddingService.js:87-97):
truncate the text to `maxTokens * 4` characters when longer, then
prepend the passage marker. -/
def prepareTextForEmbedding (text : Str) : Str :=
  passageMarker ++
    (if text.length > embeddingMaxTokens * 4 then text.take (embeddingMaxTokens * 4)
     else text)

/-- The prepared query text inside `EmbeddingService.generateQueryEmbedding`
(E5 embeddingService.js:120-143): `prefix.query + query`, with no
truncation step. -/
def preparedQueryText (query : Str) : Str := queryMarker ++ query

/-- The four fixed generic probe queries of
`QuizGenerationService._getRelevantContent` (quizGenerationService.js:61-66). -/
def generalQueries : List String :=
  ["important concepts and definitions",
   "key procedures and methods",
   "main principles and theories",
   "essential facts and information"]

/-- Recursion of `QuizGenerationService._removeDuplicateChunks`
(quizGenerationService.js:242-251): filter keeping the first occurrence
of each chunk id (the JS `Set` of seen ids is the `seen` list). -/
def removeDupGo (seen : List String) : List QPoint → List QPoint
  | [] => []
  | c :: rest =>
    if c.id ∈ seen then removeDupGo seen rest
    else c :: removeDupGo (c.id :: seen) rest

def removeDuplicateChunks (chunks : List QPoint) : List QPoint :=
  removeDupGo [] chunks

/-- `QuizGenerationService._getRelevantContent`
(quizGenerationService.js:53-82).  `search` stands for the awaited
external `vectorSearchService.searchWithQuery(query, documentId, topK)`
pipeline (query embedding + dense vector search).  With a custom query it
is a single search; otherwise each of the four generic probe queries is
run for `ceil(topK/4)` results, the result lists are concatenated in
query order, deduplicated by chunk id (first occurrence wins) and
truncated to `topK`. -/
def getRelevantContent (search : String → Option String → Nat → List QPoint)
    (documentId : Option String) (customQuery : String) (topK : Nat) : List QPoint :=
  if customQuery ≠ "" then search customQuery documentId topK
  else
    (removeDuplicateChunks
      ((generalQueries.map (fun q => search q documentId ((topK + 3) / 4))).flatten)).take
      topK

/-- A retrieval result for the hybrid merge: chunk id, method-specific
score, ordinal chunk index. -/
structure Hit where
  id : String
  score : ℚ
  ordinal : Nat

/-- Descending-score insertion with the deterministic tie-break by lower
ordinal chunk index (spec §4.5). -/
def insertHit (h : Hit) : List Hit → List Hit
  | [] => [h]
  | g :: gs =>
    if h.score < g.score ∨ (h.score = g.score ∧ g.ordinal ≤ h.ordinal) then
      g :: insertHit h gs
    else h :: g :: gs

def sortHits (l : List Hit) : List Hit := l.foldr insertHit []

/-- Modelled from the spec: the §4.5 hybrid merge.  No dense+lexical
merge exists under src/ — the lexical (BM25) leg and the merge live in
the Python layer of which only a compiled `bm25_indexer` artifact
survives — so the algorithm follows the spec's words: chunks appearing
in both result sets form the "both" tier, ranked before every
single-source chunk; within each tier order by originating score
descending with ties broken by lower ordinal index; truncate to `topK`. -/
def hybridMergeAll (dense lex : List Hit) : List Hit :=
  let bothTier := sortHits (dense.filter (fun h => lex.any (fun g => g.id = h.id)))
  let denseOnly := dense.filter (fun h => !(lex.any (fun g => g.id = h.id)))
  let lexOnly := lex.filter (fun g => !(dense.any (fun h => h.id = g.id)))
  bothTier ++ sortHits (denseOnly ++ lexOnly)

/-- The full merged hybrid retrieval result, truncated to `topK`. -/
def hybridRetrieve (dense lex : List Hit) (topK : Nat) : List Hit :=
  (hybridMergeAll dense lex).take topK

/-! ### Text cleaning (`TextProcessor.basicTextCleaning`, textProcessor.js:47-70) -/

/-- `.replace(/\f/g, '')` — remove form feeds. -/
def removeFF (l : Str) : Str := l.filter (fun c => c ≠ '\x0c')

/-- `.replace(/\r\n|\r/g, '\n')` — normalize line endings. -/
def normCR : Str → Str
  | [] => []
  | '\r' :: '\n' :: rest => '\n' :: normCR rest
  | '\r' :: rest => '\n' :: normCR rest
  | c :: rest => c :: normCR rest

/-- Replace every maximal run of characters satisfying `p` by the single
character `r` (the shape of `.replace(/X+/g, 'r')`); the Bool state says
whether we are inside a run. -/
def collapseRunsGo (p : Char → Bool) (r : Char) : Bool → Str → Str
  | _, [] => []
  | inRun, c :: rest =>
    if p c then
      if inRun then collapseRunsGo p r true rest
      else r :: collapseRunsGo p r true rest
    else c :: collapseRunsGo p r false rest

def isSpTab (c : Char) : Bool := c = ' ' || c = '\t'

/-- `.replace(/[ \t]+/g, ' ')` — collapse space/tab runs. -/
def collapseSpTab (l : Str) : Str := collapseRunsGo isSpTab ' ' false l

/-- Emit a pending newline run: three or more newlines become two
(`.replace(/\n{3,}/g, '\n\n')`). -/
def emitNl (k : Nat) : Str := if k ≥ 3 then ['\n', '\n'] else List.replicate k '\n'

def squeezeNlGo : Nat → Str → Str
  | k, [] => emitNl k
  | k, c :: rest =>
    if c = '\n' then squeezeNlGo (k + 1) rest
    else emitNl k ++ c :: squeezeNlGo 0 rest

/-- `.replace(/\n{3,}/g, '\n\n')` — squeeze blank-line runs. -/
def squeezeNl (l : Str) : Str := squeezeNlGo 0 l

/-- `.replace(/â€¢/g, '- ')` — the mojibake bullet sequence becomes a dash. -/
def fixBullet : Str → Str
  | [] => []
  | 'â' :: '€' :: '¢' :: rest => '-' :: ' ' :: fixBullet rest
  | c :: rest => c :: fixBullet rest

/-- JS `\w` (word character), for the `\b` boundaries of the split-number
fix. -/
def isWordC (c : Char) : Bool := isDigitA c || isUpperA c || isLowerA c || c = '_'

/-- Attempt `\b(\d+)\s*\.\s*(\d+)\b` at the head of `l` (the leading `\b`
is the caller's duty): on success return the replacement `$1.$2` and the
rest of the input after the match. -/
def numFixTry (l : Str) : Option (Str × Str) :=
  let d1 := l.takeWhile isDigitA
  if d1.isEmpty then none
  else
    let r1 := (l.drop d1.length).dropWhile isWs
    match r1 with
    | '.' :: r2 =>
      let r3 := r2.dropWhile isWs
      let d2 := r3.takeWhile isDigitA
      if d2.isEmpty then none
      else
        let r4 := r3.drop d2.length
        match r4 with
        | [] => some (d1 ++ '.' :: d2, r4)
        | c :: _ => if isWordC c then none else some (d1 ++ '.' :: d2, r4)
    | _ => none

set_option linter.unusedVariables false in
/-- `.replace(/\b(\d+)\s*\.\s*(\d+)\b/g, '$1.$2')` — join split numbers.
`prevWord` tracks whether the previous character is a word character
(for the leading `\b`); scanning resumes after each match. -/
def numFixGo (prevWord : Bool) (l : Str) : Str :=
  match l with
  | [] => []
  | c :: rest =>
    if !prevWord && isDigitA c then
      match h : numFixTry (c :: rest) with
      | some pr => pr.1 ++ numFixGo true pr.2
      | none => c :: numFixGo (isWordC c) rest
    else c :: numFixGo (isWordC c) rest
termination_by l.length
decreasing_by
  · have hlen : ∀ (x rp rr : Str), numFixTry x = some (rp, rr) → rr.length < x.length := by
      intro x rp rr hx
      simp only [numFixTry] at hx
      split at hx
      · exact absurd hx (by simp)
      · rename_i hne
        split at hx
        · rename_i r2 hr1
          split at hx
          · exact absurd hx (by simp)
          · rename_i hd2
            have hr2x : r2.length + 1
                ≤ x.length - (x.takeWhile isDigitA).length := by
              have hd := ((List.dropWhile_sublist (l := x.drop
                (x.takeWhile isDigitA).length) isWs).length_le)
              rw [hr1, List.length_drop] at hd
              simpa using hd
            have hd1 : 1 ≤ (x.takeWhile isDigitA).length := by
              cases hq : x.takeWhile isDigitA with
              | nil => rw [hq] at hne; simp at hne
              | cons a t => simp
            have hrr : rr.length ≤ r2.length := by
              have h5 : rr = (r2.dropWhile isWs).drop
                  ((r2.dropWhile isWs).takeWhile isDigitA).length := by
                split at hx
                · have h7 := congrArg Prod.snd (Option.some.inj hx)
                  simp only at h7
                  exact h7.symm
                · split at hx
                  · exact absurd hx (by simp)
                  · have h7 := congrArg Prod.snd (Option.some.inj hx)
                    simp only at h7
                    exact h7.symm
              rw [h5]
              calc ((r2.dropWhile isWs).drop _).length
                  ≤ (r2.dropWhile isWs).length :=
                    (List.drop_sublist _ _).length_le
                _ ≤ r2.length := (List.dropWhile_sublist isWs).length_le
            omega
        · exact absurd hx (by simp)
    exact hlen _ pr.1 pr.2 h
  · simp
  · simp

def numFix (l : Str) : Str := numFixGo false l

/-- `.replace(/([a-z])([A-Z])/g, '$1 $2')` — put a space between a
lowercase and an uppercase letter; matches do not overlap. -/
def camelFix : Str → Str
  | [] => []
  | [c] => [c]
  | a :: b :: rest =>
    if isLowerA a && isUpperA b then a :: ' ' :: b :: camelFix rest
    else a :: camelFix (b :: rest)

def isPunctC (c : Char) : Bool :=
  c = ',' || c = '.' || c = ';' || c = ':' || c = '!' || c = '?'

/-- `.replace(/\s+([,.;:!?])/g, '$1')` — drop whitespace runs before
punctuation.  `acc` buffers the pending whitespace run (reversed). -/
def dwbpGo (acc : Str) : Str → Str
  | [] => acc.reverse
  | c :: rest =>
    if isWs c then dwbpGo (c :: acc) rest
    else if isPunctC c && !acc.isEmpty then c :: dwbpGo [] rest
    else acc.reverse ++ c :: dwbpGo [] rest

def dropWsBeforePunct (l : Str) : Str := dwbpGo [] l

/-- `.replace(/([,.;:!?])\s+/g, '$1 ')` — one space after punctuation.
`ap` = the previous emitted character was punctuation; `ir` = we are
inside a whitespace run already replaced by one space. -/
def papGo : Bool → Bool → Str → Str
  | _, _, [] => []
  | ap, ir, c :: rest =>
    if ir && isWs c then papGo false true rest
    else if ap && isWs c then ' ' :: papGo false true rest
    else c :: papGo (isPunctC c) false rest

def padAfterPunct (l : Str) : Str := papGo false false l

/-- `.replace(/\s+/g, ' ')` — the final whitespace collapse. -/
def collapseWs (l : Str) : Str := collapseRunsGo isWs ' ' false l

/-- `TextProcessor.basicTextCleaning` (backend textProcessor.js:47-70):
the full replacement chain; `!text` (empty string) short-circuits to
the empty string. -/
def basicTextCleaning (t : Str) : Str :=
  if t.isEmpty then []
  else
    collapseWs (trimChars (padAfterPunct (dropWsBeforePunct (camelFix (numFix
      (fixBullet (squeezeNl (collapseSpTab (normCR (removeFF t))))))))))

/-- Embedding-service state for the C3 counterexample: mock mode off,
Python bridge failing. -/
def embErrCtx : EmbCtx :=
  ⟨false, false, fun _ => none, fun _ => none, fun _ => [1], [2]⟩

/-- Vector-search state for the C3 counterexample: mock mode off, bridge
failing, empty store. -/
def vsErrCtx : VSCtx := ⟨false, false, []⟩

/-- A stored point scoring 1/2 — a legitimate near-match that the default
0.7 threshold silently drops. -/
def c7Point : QPoint := ⟨"c1", "d", 1 / 2, "some content", 1, 0⟩

/-- A stored point with a negative cosine score, retained by
`searchSimilarChunks` when the threshold is 0. -/
def c7NegPoint : QPoint := ⟨"c2", "d", -1, "opposite content", 1, 1⟩

/-- A query longer than `4 × maxTokens` characters. -/
def c9LongQuery : Str := List.replicate 2049 'a'

def c2Dense : List Hit := [⟨"x", 1, 0⟩, ⟨"y", 1, 1⟩]

def c2Lex : List Hit := [⟨"x", 1, 0⟩]

/-! ### Helper lemmas about the chunker -/

theorem bodiesLoop_acc (maxT : Nat) (ss : List Str) :
    ∀ bodies cur, bodiesLoop maxT ss bodies cur = bodies ++ bodiesLoop maxT ss [] cur := by
  induction ss with
  | nil =>
    intro bodies cur
    simp only [bodiesLoop]
    by_cases h : cur.isEmpty <;> simp [h]
  | cons s ss ih =>
    intro bodies cur
    simp only [bodiesLoop, List.nil_append]
    by_cases h : (estimateTokenCount (joinSp cur s) > maxT && !cur.isEmpty) = true
    · simp only [h, if_pos]
      rw [ih (bodies ++ [cur]), ih [cur]]
      simp
    · simp only [h, if_neg]
      exact ih bodies (joinSp cur s)

theorem slcLoop_recon (maxT overlap : Nat) (ss : List Str) :
    ∀ chunks cur buf,
      slcLoop maxT overlap ss chunks cur buf
        = chunks ++ reconFrom overlap buf (bodiesLoop maxT ss [] cur) := by
  induction ss with
  | nil =>
    intro chunks cur buf
    simp only [slcLoop, bodiesLoop]
    by_cases h : cur.isEmpty <;> simp [h, reconFrom]
  | cons s ss ih =>
    intro chunks cur buf
    simp only [slcLoop, bodiesLoop, List.nil_append]
    by_cases h : (estimateTokenCount (joinSp cur s) > maxT && !cur.isEmpty) = true
    · simp only [h, if_pos]
      rw [ih, bodiesLoop_acc maxT ss [cur] s]
      simp [reconFrom]
    · simp only [h, if_neg]
      exact ih chunks (joinSp cur s) buf

/-- `splitLargeChunk` emits exactly its bodies, each body after the first
prefixed (when the window is nonempty) by the overlap window made of the
last `ceil(overlap/10)` sentences of the previous body. -/
theorem splitLargeChunk_recon (chunk : Str) (maxT overlap : Nat) :
    splitLargeChunk chunk maxT overlap
      = reconFrom overlap [] (splitBodies chunk maxT) := by
  unfold splitLargeChunk splitBodies
  simpa using slcLoop_recon maxT overlap (splitSentences chunk) [] [] []

theorem reconFrom_length (overlap : Nat) :
    ∀ buf bs, (reconFrom overlap buf bs).length = bs.length := by
  intro buf bs
  induction bs generalizing buf with
  | nil => rfl
  | cons b bs ih => simp [reconFrom, ih]

theorem bodiesLoop_ne_nil (maxT : Nat) (ss : List Str) :
    ∀ bodies cur, (bodies ≠ [] ∨ cur ≠ []) → bodiesLoop maxT ss bodies cur ≠ [] := by
  induction ss with
  | nil =>
    intro bodies cur h
    simp only [bodiesLoop]
    rcases h with h | h
    · by_cases hc : cur.isEmpty <;> simp [hc, h]
    · have : cur.isEmpty = false := by
        cases cur with
        | nil => exact absurd rfl h
        | cons a l => rfl
      simp [this]
  | cons s ss ih =>
    intro bodies cur h
    simp only [bodiesLoop]
    by_cases hb : (estimateTokenCount (joinSp cur s) > maxT && !cur.isEmpty) = true
    · simp only [hb, if_pos]
      exact ih _ _ (Or.inl (by simp))
    · simp only [hb, if_neg]
      rcases h with h | h
      · exact ih _ _ (Or.inl h)
      · refine ih _ _ (Or.inr ?_)
        unfold joinSp
        cases cur with
        | nil => simp at h
        | cons a l => simp

theorem splitSentences_head_ne_nil (c : Char) (rest : Str) :
    ∃ p ps, splitSentences (c :: rest) = p :: ps ∧ p ≠ [] := by
  unfold splitSentences
  simp only [splitSentGo, Bool.false_and, Bool.false_eq_true, if_false]
  by_cases h2 : (isSentEnd c && headIsWs rest) = true
  · exact ⟨[c], splitSentGo true rest, by simp [h2], by simp⟩
  · simp only [h2, if_neg]
    cases hr : splitSentGo false rest with
    | nil => exact ⟨[c], [], by simp [consHead], by simp⟩
    | cons h t => exact ⟨c :: h, t, by simp [consHead], by simp⟩

/-- A nonempty chunk always splits into at least one emitted piece. -/
theorem splitLargeChunk_ne_nil (chunk : Str) (maxT overlap : Nat)
    (h : chunk ≠ []) : splitLargeChunk chunk maxT overlap ≠ [] := by
  rw [splitLargeChunk_recon]
  intro hcontra
  have hlen := reconFrom_length overlap [] (splitBodies chunk maxT)
  rw [hcontra] at hlen
  have hbodies : splitBodies chunk maxT ≠ [] := by
    unfold splitBodies
    obtain ⟨c, rest, hcr⟩ : ∃ c rest, chunk = c :: rest := by
      cases chunk with
      | nil => exact absurd rfl h
      | cons a l => exact ⟨a, l, rfl⟩
    obtain ⟨p, ps, hps, hp⟩ := splitSentences_head_ne_nil c rest
    rw [hcr, hps]
    simp only [bodiesLoop, joinSp]
    have : (estimateTokenCount ([] ++ (if ([] : Str).isEmpty then [] else [' ']) ++ p) > maxT
        && !([] : Str).isEmpty) = false := by simp
    rw [this]
    simp only [Bool.false_eq_true, if_false]
    exact bodiesLoop_ne_nil maxT ps [] _ (Or.inr (by simpa using hp))
  exact hbodies (List.length_eq_zero.mp hlen.symm)

/-- A chunk whose estimate is already within `[minTokens, maxTokens]`
passes `optimizeChunkSizes` unchanged, so a fully in-range list is the
identity. -/
theorem foldl_optimizeStep_id (cfg : ChunkConfig) (l : List Str)
    (h : ∀ c ∈ l, cfg.minTokens ≤ estimateTokenCount c ∧
      estimateTokenCount c ≤ cfg.maxTokens) :
    ∀ acc, l.foldl (optimizeStep cfg) acc = acc ++ l := by
  induction l with
  | nil => intro acc; simp
  | cons c cs ih =>
    intro acc
    have hc := h c (by simp)
    have hstep : optimizeStep cfg acc c = acc ++ [c] := by
      unfold optimizeStep
      rw [if_pos ⟨hc.2, hc.1⟩]
    rw [List.foldl_cons, hstep,
      ih (fun x hx => h x (List.mem_cons_of_mem c hx)) (acc ++ [c])]
    simp

theorem optimizeStep_ne_nil (cfg : ChunkConfig) (acc : List Str) (c : Str)
    (h : acc ≠ [] ∨ c ≠ []) : optimizeStep cfg acc c ≠ [] := by
  unfold optimizeStep
  by_cases h1 : estimateTokenCount c ≤ cfg.maxTokens ∧ estimateTokenCount c ≥ cfg.minTokens
  · simp [h1]
  · rw [if_neg h1]
    by_cases h2 : estimateTokenCount c > cfg.maxTokens
    · rw [if_pos h2]
      rcases h with h | h
      · simp [h]
      · simp [splitLargeChunk_ne_nil c cfg.maxTokens cfg.overlap h]
    · rw [if_neg h2]
      by_cases h3 : estimateTokenCount c < cfg.minTokens ∧ acc ≠ []
      · rw [if_pos h3]
        cases hl : acc.getLast? with
        | none => simp
        | some last =>
          simp only []
          by_cases h4 : estimateTokenCount (last ++ nn ++ c) ≤ cfg.maxTokens
          · rw [if_pos h4]; simp
          · rw [if_neg h4]; simp
      · rw [if_neg h3]; simp

theorem foldl_optimizeStep_ne_nil (cfg : ChunkConfig) (l : List Str) :
    ∀ acc, acc ≠ [] → l.foldl (optimizeStep cfg) acc ≠ [] := by
  induction l with
  | nil => intro acc h; simpa using h
  | cons c cs ih =>
    intro acc h
    rw [List.foldl_cons]
    exact ih _ (optimizeStep_ne_nil cfg acc c (Or.inl h))

theorem optimizeChunkSizes_ne_nil (cfg : ChunkConfig) (l : List Str)
    (hne : l ≠ []) (helts : ∀ c ∈ l, c ≠ []) : optimizeChunkSizes cfg l ≠ [] := by
  unfold optimizeChunkSizes
  cases l with
  | nil => exact absurd rfl hne
  | cons c cs =>
    rw [List.foldl_cons]
    exact foldl_optimizeStep_ne_nil cfg cs _
      (optimizeStep_ne_nil cfg [] c (Or.inr (helts c (by simp))))

theorem mem_addMetadata (l : List Str) (pageCount now : Nat) (ch : Chunk)
    (h : ch ∈ addMetadata l pageCount now) :
    ∃ c ∈ l, ch.tokenCount = estimateTokenCount c ∧
      ch.chunkId = "chunk_" ++ toString ch.index ++ "_" ++ toString now := by
  unfold addMetadata at h
  simp only [List.mem_map] at h
  obtain ⟨ic, hic, hch⟩ := h
  refine ⟨ic.2, ?_, ?_, ?_⟩
  · have : ic.2 ∈ l.enum.map Prod.snd := List.mem_map_of_mem Prod.snd hic
    simpa [List.enum_map_snd] using this
  · rw [← hch]
  · rw [← hch]

theorem addMetadata_map_content (l : List Str) (pageCount now : Nat) :
    (addMetadata l pageCount now).map (fun ch => ch.content) = l := by
  unfold addMetadata
  rw [List.map_map]
  exact (List.map_congr_left fun ic _ => rfl).trans (List.enum_map_snd l)

theorem addMetadata_map_tokenCount (l : List Str) (pageCount now : Nat) :
    (addMetadata l pageCount now).map (fun ch => ch.tokenCount)
      = l.map estimateTokenCount := by
  unfold addMetadata
  rw [List.map_map]
  have h2 : List.map (estimateTokenCount ∘ Prod.snd) l.enum
      = l.map estimateTokenCount := by
    rw [← List.map_map, List.enum_map_snd]
  exact (List.map_congr_left fun ic _ => rfl).trans h2

theorem addMetadata_length (l : List Str) (pageCount now : Nat) :
    (addMetadata l pageCount now).length = l.length := by
  unfold addMetadata
  simp

/-! ### Claims about the chunker (C1, C4, C5, C6) -/

/-- C1, counterexample.  The claimed invariant — every chunk except
possibly the final one has an estimated token count in
`[minTokens, maxTokens]` — fails on the code: with the default
configuration `[50, 500]`, the text `c1Text` produces two chunks whose
token counts are `[2, 50]`; the first (non-final) chunk is a small first
paragraph that `optimizeChunkSizes` keeps as-is because there is no
previous chunk to merge it into, and its estimate 2 is below
`minTokens = 50`. -/
theorem c1_chunk_bounds_counterexample :
    (createChunks defaultChunkConfig c1Text.data 1 0).map (fun ch => ch.tokenCount)
      = [2, 50]
    ∧ ((createChunks defaultChunkConfig c1Text.data 1 0).take
        ((createChunks defaultChunkConfig c1Text.data 1 0).length - 1)).any
        (fun ch => ch.tokenCount < defaultChunkConfig.minTokens) = true :=
  ⟨by decide, by decide⟩

/-- C1, amended.  If every semantic chunk of the text already has an
estimated token count within `[minTokens, maxTokens]`, then every chunk
produced by `createChunks` does too (size optimization passes in-range
chunks through unchanged).  In general the invariant can fail: a first
or unmergeable small chunk survives below `minTokens` (see the
counterexample), and splitting can emit chunks outside the bounds. -/
theorem c1_chunk_token_bounds (cfg : ChunkConfig) (text : Str) (pageCount now : Nat)
    (h : ∀ c ∈ semanticChunking text,
      cfg.minTokens ≤ estimateTokenCount c ∧ estimateTokenCount c ≤ cfg.maxTokens) :
    ∀ ch ∈ createChunks cfg text pageCount now,
      cfg.minTokens ≤ ch.tokenCount ∧ ch.tokenCount ≤ cfg.maxTokens := by
  intro ch hch
  unfold createChunks at hch
  rw [show optimizeChunkSizes cfg (semanticChunking text) = semanticChunking text by
    unfold optimizeChunkSizes
    simpa using foldl_optimizeStep_id cfg _ h []] at hch
  obtain ⟨c, hc, htc, _⟩ := mem_addMetadata _ _ _ _ hch
  rw [htc]
  exact h c hc

/-- C1, witness: a 37-word paragraph (50 tokens) satisfies the hypothesis
under the default configuration, and the conclusion follows. -/
theorem c1_chunk_token_bounds_witness :
    (∀ c ∈ semanticChunking c1Good.data,
      defaultChunkConfig.minTokens ≤ estimateTokenCount c ∧
        estimateTokenCount c ≤ defaultChunkConfig.maxTokens)
    ∧ ∀ ch ∈ createChunks defaultChunkConfig c1Good.data 1 0,
        defaultChunkConfig.minTokens ≤ ch.tokenCount ∧
          ch.tokenCount ≤ defaultChunkConfig.maxTokens :=
  ⟨by decide, c1_chunk_token_bounds defaultChunkConfig c1Good.data 1 0 (by decide)⟩

/-- C4, counterexample.  Chunk ids are not a stable function of document
id and ordinal: `addMetadata` computes `chunk_${index}_${Date.now()}`,
so two runs on identical input, page count and configuration but at
different clock values produce different ids (and the id mentions no
document id at all). -/
theorem c4_chunk_id_counterexample :
    (createChunks defaultChunkConfig "hello world".data 1 0).map (fun ch => ch.chunkId)
      = ["chunk_0_0"]
    ∧ (createChunks defaultChunkConfig "hello world".data 1 1).map (fun ch => ch.chunkId)
      = ["chunk_0_1"]
    ∧ ("chunk_0_0" : String) ≠ "chunk_0_1" :=
  ⟨by decide, by decide, by decide⟩

/-- C4, amended.  Re-running the chunker on identical input, page count
and configuration reproduces identical chunk boundaries and token counts
(the content pipeline is a pure function of text and configuration), but
every chunk id is `chunk_<index>_<timestamp>`, a function of the ordinal
and the run's `Date.now()` value — not of the document id — so ids
change between runs made at different times. -/
theorem c4_chunker_determinism (cfg : ChunkConfig) (text : Str) (pageCount n1 n2 : Nat) :
    (createChunks cfg text pageCount n1).map (fun ch => ch.content)
      = (createChunks cfg text pageCount n2).map (fun ch => ch.content)
    ∧ (createChunks cfg text pageCount n1).map (fun ch => ch.tokenCount)
      = (createChunks cfg text pageCount n2).map (fun ch => ch.tokenCount)
    ∧ ∀ ch ∈ createChunks cfg text pageCount n1,
        ch.chunkId = "chunk_" ++ toString ch.index ++ "_" ++ toString n1 := by
  refine ⟨?_, ?_, ?_⟩
  · unfold createChunks
    rw [addMetadata_map_content, addMetadata_map_content]
  · unfold createChunks
    rw [addMetadata_map_tokenCount, addMetadata_map_tokenCount]
  · intro ch hch
    obtain ⟨c, _, _, hid⟩ := mem_addMetadata _ _ _ _ hch
    exact hid

/-- C5, counterexample.  An invalid configuration with
`minTokens = 50 > maxTokens = 10` is not rejected: `createChunks`
performs no configuration validation anywhere (neither does
`Config.CHUNK_CONFIG`, which only reads environment variables), and
processing proceeds — here it even merges the two paragraphs using the
invalid bounds and returns one ordinary chunk instead of an error. -/
theorem c5_no_config_rejection_counterexample :
    c5Bad.minTokens > c5Bad.maxTokens
    ∧ (createChunks c5Bad c5Text.data 1 0).length = 1
    ∧ (createChunks c5Bad c5Text.data 1 0).map (fun ch => ch.content)
      = [("a b" ++ "\n\n" ++ "# c d").data] :=
  ⟨by decide, by decide, by decide⟩

/-- C5, amended.  Chunking never rejects its configuration: even with
`minTokens > maxTokens` the pipeline is total and produces chunks for any
text with at least one semantic chunk; chunking has no failure mode at
all in the pure path. -/
theorem c5_chunking_accepts_invalid_config (cfg : ChunkConfig) (text : Str)
    (pageCount now : Nat) (_hcfg : cfg.minTokens > cfg.maxTokens)
    (hne : semanticChunking text ≠ []) :
    createChunks cfg text pageCount now ≠ [] := by
  unfold createChunks
  intro hcontra
  have hlen := addMetadata_length (optimizeChunkSizes cfg (semanticChunking text))
    pageCount now
  rw [hcontra] at hlen
  have hopt : optimizeChunkSizes cfg (semanticChunking text) ≠ [] := by
    apply optimizeChunkSizes_ne_nil cfg _ hne
    intro c hc
    unfold semanticChunking at hc
    have := List.of_mem_filter hc
    simpa using this
  exact hopt (List.length_eq_zero.mp hlen.symm)

/-- C5, witness: the invalid configuration `c5Bad` with `c5Text`
discharges both hypotheses, and chunks are still produced. -/
theorem c5_chunking_accepts_invalid_config_witness :
    c5Bad.minTokens > c5Bad.maxTokens
    ∧ semanticChunking c5Text.data ≠ []
    ∧ createChunks c5Bad c5Text.data 1 0 ≠ [] :=
  ⟨by decide, by decide,
    c5_chunking_accepts_invalid_config c5Bad c5Text.data 1 0 (by decide) (by decide)⟩

/-- C6, confirmed.  Oversized chunks are split at sentence boundaries and
every emitted chunk after the first is re-prepended with the overlap
window of the last `N = ceil(overlap/10)` trailing sentences of the
previous chunk: in general `splitLargeChunk` equals its bodies
reassembled with `mkBuf` overlap windows, and on the specification's
scenario — a single paragraph of exactly 300 estimated tokens with
`maxTokens = 100`, `overlap = 20` (so `N = 2`) — exactly 3 chunks are
emitted, chunk 2 is the last-2-sentence window of emitted chunk 1
prepended to its body, chunk 3 likewise for emitted chunk 2, and every
successive pair shares at least one full sentence. -/
theorem c6_overlap_window_split :
    (∀ chunk maxT overlap, splitLargeChunk chunk maxT overlap
      = reconFrom overlap [] (splitBodies chunk maxT))
    ∧ estimateTokenCount c6Para.data = 300
    ∧ nCeil10 20 = 2
    ∧ splitLargeChunk c6Para.data 100 20
      = [(c6Slice 0 5).data, (c6Slice 3 7).data, (c6Slice 8 7).data]
    ∧ (c6Slice 3 7).data = emitWith (mkBuf 20 (c6Slice 0 5).data) (c6Slice 5 5).data
    ∧ (c6Slice 8 7).data = emitWith (mkBuf 20 (c6Slice 3 7).data) (c6Slice 10 5).data
    ∧ mkBuf 20 (c6Slice 0 5).data = (c6Slice 3 2).data
    ∧ sharesSentence (c6Slice 0 5).data (c6Slice 3 7).data = true
    ∧ sharesSentence (c6Slice 3 7).data (c6Slice 8 7).data = true :=
  ⟨fun chunk maxT overlap => splitLargeChunk_recon chunk maxT overlap,
    by decide, by decide, by decide, by decide, by decide, by decide, by decide, by decide⟩

/-! ### Helper lemmas about whitespace collapsing and trimming -/

theorem head?_dropWhile_isWs (l : Str) :
    ∀ c, (l.dropWhile isWs).head? = some c → isWs c = false := by
  induction l with
  | nil => intro c h; simp at h
  | cons a rest ih =>
    intro c h
    by_cases ha : isWs a = true
    · rw [List.dropWhile_cons_of_pos ha] at h
      exact ih c h
    · rw [List.dropWhile_cons_of_neg ha] at h
      simp only [List.head?_cons, Option.some.injEq] at h
      rw [← h]
      simpa using ha

theorem trimChars_head (l : Str) :
    ∀ c, (trimChars l).head? = some c → isWs c = false := by
  intro c h
  unfold trimChars at h
  rw [List.head?_reverse] at h
  cases hWe : (l.dropWhile isWs).reverse.dropWhile isWs with
  | nil => rw [hWe] at h; simp at h
  | cons w ws0 =>
    obtain ⟨pre, hpre⟩ := @List.dropWhile_suffix _ ((l.dropWhile isWs).reverse) isWs
    have h2 : (l.dropWhile isWs).reverse.getLast? = some c := by
      rw [← hpre, List.getLast?_append_of_ne_nil pre (by rw [hWe]; simp)]
      exact h
    rw [List.getLast?_reverse] at h2
    exact head?_dropWhile_isWs l c h2

theorem trimChars_getLast (l : Str) :
    ∀ c, (trimChars l).getLast? = some c → isWs c = false := by
  intro c h
  unfold trimChars at h
  rw [List.getLast?_reverse] at h
  exact head?_dropWhile_isWs (l.dropWhile isWs).reverse c h

theorem collapseRunsGo_mem (p : Char → Bool) (r : Char) (l : Str) :
    ∀ (b : Bool) (c : Char), c ∈ collapseRunsGo p r b l →
      c = r ∨ (c ∈ l ∧ p c = false) := by
  induction l with
  | nil => intro b c hc; simp [collapseRunsGo] at hc
  | cons a rest ih =>
    intro b c hc
    simp only [collapseRunsGo] at hc
    by_cases ha : p a = true
    · rw [if_pos ha] at hc
      by_cases hb : b = true
      · rw [if_pos hb] at hc
        rcases ih true c hc with h | h
        · exact Or.inl h
        · exact Or.inr ⟨List.mem_cons_of_mem a h.1, h.2⟩
      · rw [if_neg hb] at hc
        rcases List.mem_cons.mp hc with h | h
        · exact Or.inl h
        · rcases ih true c h with h2 | h2
          · exact Or.inl h2
          · exact Or.inr ⟨List.mem_cons_of_mem a h2.1, h2.2⟩
    · rw [if_neg ha] at hc
      rcases List.mem_cons.mp hc with h | h
      · refine Or.inr ⟨by rw [h]; simp, ?_⟩
        rw [h]
        simpa using ha
      · rcases ih false c h with h2 | h2
        · exact Or.inl h2
        · exact Or.inr ⟨List.mem_cons_of_mem a h2.1, h2.2⟩

theorem collapseRunsGo_head_true (l : Str) :
    ∀ c, ((collapseRunsGo isWs ' ' true l).head? = some c) → isWs c = false := by
  induction l with
  | nil => intro c h; simp [collapseRunsGo] at h
  | cons a rest ih =>
    intro c h
    simp only [collapseRunsGo] at h
    by_cases ha : isWs a = true
    · rw [if_pos ha, if_pos trivial] at h
      exact ih c h
    · rw [if_neg ha] at h
      simp only [List.head?_cons, Option.some.injEq] at h
      rw [← h]
      simpa using ha

theorem collapseRunsGo_ne_nil (l : Str) :
    ∀ b, (∃ x ∈ l, isWs x = false) → collapseRunsGo isWs ' ' b l ≠ [] := by
  induction l with
  | nil => intro b h; simp at h
  | cons a rest ih =>
    intro b h
    simp only [collapseRunsGo]
    by_cases ha : isWs a = true
    · rw [if_pos ha]
      have hrest : ∃ x ∈ rest, isWs x = false := by
        obtain ⟨x, hx, hxw⟩ := h
        rcases List.mem_cons.mp hx with h1 | h1
        · rw [h1] at hxw
          rw [hxw] at ha
          simp at ha
        · exact ⟨x, h1, hxw⟩
      by_cases hb : b = true
      · rw [if_pos hb]; exact ih true hrest
      · rw [if_neg hb]; simp
    · rw [if_neg ha]; simp

theorem collapseRunsGo_chain (l : Str) :
    ∀ b, (collapseRunsGo isWs ' ' b l).Chain'
      (fun x y => ¬(isWs x = true ∧ isWs y = true)) := by
  induction l with
  | nil => intro b; simp [collapseRunsGo]
  | cons a rest ih =>
    intro b
    simp only [collapseRunsGo]
    by_cases ha : isWs a = true
    · rw [if_pos ha]
      by_cases hb : b = true
      · rw [if_pos hb]; exact ih true
      · rw [if_neg hb]
        rw [List.chain'_cons']
        refine ⟨?_, ih true⟩
        intro y hy hcon
        have := collapseRunsGo_head_true rest y hy
        rw [this] at hcon
        simp at hcon
    · rw [if_neg ha]
      rw [List.chain'_cons']
      refine ⟨?_, ih false⟩
      intro y _ hcon
      exact ha hcon.1

theorem lastOf_tail_nonWs (a : Char) (rest : Str)
    (h : ∀ cl, (a :: rest).getLast? = some cl → isWs cl = false) (hne : rest ≠ []) :
    ∀ cl, rest.getLast? = some cl → isWs cl = false := by
  intro cl hcl
  apply h cl
  cases rest with
  | nil => exact absurd rfl hne
  | cons d rest' => rw [List.getLast?_cons_cons]; exact hcl

theorem exists_nonWs_of_last (rest : Str) (hne : rest ≠ [])
    (h : ∀ cl, rest.getLast? = some cl → isWs cl = false) :
    ∃ x ∈ rest, isWs x = false :=
  ⟨rest.getLast hne, List.getLast_mem hne,
    h _ (List.getLast?_eq_getLast rest hne)⟩

theorem collapseRunsGo_getLast (l : Str) :
    ∀ b, (∀ cl, l.getLast? = some cl → isWs cl = false) →
      ∀ c, ((collapseRunsGo isWs ' ' b l).getLast? = some c) → isWs c = false := by
  induction l with
  | nil => intro b _ c hc; simp [collapseRunsGo] at hc
  | cons a rest ih =>
    intro b h c hc
    simp only [collapseRunsGo] at hc
    by_cases ha : isWs a = true
    · rw [if_pos ha] at hc
      cases hrest : rest with
      | nil =>
        subst hrest
        have := h a (by simp)
        rw [this] at ha
        simp at ha
      | cons d rest' =>
        subst hrest
        have hlast := lastOf_tail_nonWs a (d :: rest') h (by simp)
        have hex := exists_nonWs_of_last (d :: rest') (by simp) hlast
        by_cases hb : b = true
        · rw [if_pos hb] at hc
          exact ih true hlast c hc
        · rw [if_neg hb] at hc
          have hX := collapseRunsGo_ne_nil (d :: rest') true hex
          cases hXe : collapseRunsGo isWs ' ' true (d :: rest') with
          | nil => exact absurd hXe hX
          | cons x xs =>
            rw [hXe, List.getLast?_cons_cons] at hc
            apply ih true hlast c
            rw [hXe]
            exact hc
    · rw [if_neg ha] at hc
      cases hrest : rest with
      | nil =>
        subst hrest
        simp only [collapseRunsGo, List.getLast?_singleton, Option.some.injEq] at hc
        rw [← hc]
        simpa using ha
      | cons d rest' =>
        subst hrest
        have hlast := lastOf_tail_nonWs a (d :: rest') h (by simp)
        have hex := exists_nonWs_of_last (d :: rest') (by simp) hlast
        have hX := collapseRunsGo_ne_nil (d :: rest') false hex
        cases hXe : collapseRunsGo isWs ' ' false (d :: rest') with
        | nil => exact absurd hXe hX
        | cons x xs =>
          rw [hXe, List.getLast?_cons_cons] at hc
          apply ih false hlast c
          rw [hXe]
          exact hc

theorem splitParas_no_nl (r : Str) (h : '\n' ∉ r) : splitParas r = [r] := by
  unfold splitParas
  induction r with
  | nil => rfl
  | cons c rest ih =>
    simp only [List.mem_cons, not_or] at h
    have hc : (c = '\n') = False := by
      simp only [eq_iff_iff, iff_false]
      exact fun hcc => h.1 (by rw [hcc])
    simp only [spGo, hc, decide_False, Bool.false_and, Bool.false_eq_true, if_false]
    rw [ih h.2]
    rfl

/-! ### Claims C10, C3, C7, C8, C9, C2 -/

/-- C10, confirmed.  `basicTextCleaning` returns text with no leading or
trailing whitespace and no two consecutive whitespace characters (the
chain ends in `.trim().replace(/\s+/g, ' ')`), and in particular no
newline survives — every whitespace run, blank lines included, collapses
to a single space — so the cleaned text contains no blank-line paragraph
boundary and the blank-line paragraph splitter returns it whole. -/
theorem c10_basic_cleaning_shape (t : Str) :
    (∀ c, (basicTextCleaning t).head? = some c → isWs c = false)
    ∧ (∀ c, (basicTextCleaning t).getLast? = some c → isWs c = false)
    ∧ (basicTextCleaning t).Chain' (fun a b => ¬(isWs a = true ∧ isWs b = true))
    ∧ '\n' ∉ basicTextCleaning t
    ∧ splitParas (basicTextCleaning t) = [basicTextCleaning t] := by
  have key : ∀ (x : Str),
      (∀ c, (collapseWs (trimChars x)).head? = some c → isWs c = false)
      ∧ (∀ c, (collapseWs (trimChars x)).getLast? = some c → isWs c = false)
      ∧ (collapseWs (trimChars x)).Chain' (fun a b => ¬(isWs a = true ∧ isWs b = true))
      ∧ '\n' ∉ collapseWs (trimChars x) := by
    intro x
    refine ⟨?_, ?_, ?_, ?_⟩
    · intro c hc
      unfold collapseWs at hc
      cases htr : trimChars x with
      | nil => rw [htr] at hc; simp [collapseRunsGo] at hc
      | cons c0 r0 =>
        have h0 : isWs c0 = false := trimChars_head x c0 (by rw [htr]; rfl)
        rw [htr] at hc
        simp only [collapseRunsGo] at hc
        rw [if_neg (by simp [h0])] at hc
        simp only [List.head?_cons, Option.some.injEq] at hc
        rw [← hc]
        exact h0
    · intro c hc
      exact collapseRunsGo_getLast (trimChars x) false (trimChars_getLast x) c hc
    · exact collapseRunsGo_chain (trimChars x) false
    · intro hmem
      rcases collapseRunsGo_mem isWs ' ' (trimChars x) false '\n' hmem with h | h
      · exact absurd h (by decide)
      · exact absurd h.2 (by decide)
  by_cases ht : t.isEmpty = true
  · have he : basicTextCleaning t = [] := by
      unfold basicTextCleaning
      rw [if_pos ht]
    rw [he]
    exact ⟨by simp, by simp, by simp, by simp, rfl⟩
  · have he : basicTextCleaning t
        = collapseWs (trimChars (padAfterPunct (dropWsBeforePunct (camelFix (numFix
            (fixBullet (squeezeNl (collapseSpTab (normCR (removeFF t)))))))))) := by
      unfold basicTextCleaning
      rw [if_neg ht]
    rw [he]
    obtain ⟨h1, h2, h3, h4⟩ := key (padAfterPunct (dropWsBeforePunct (camelFix (numFix
      (fixBullet (squeezeNl (collapseSpTab (normCR (removeFF t)))))))))
    exact ⟨h1, h2, h3, h4, splitParas_no_nl _ h4⟩

/-- C3, counterexample.  With mock mode off and the Python bridge
failing, `generateChunkEmbeddings` silently attaches the mock
(random-vector) embeddings, `generateQueryEmbedding` silently returns a
mock vector, and `searchSimilarChunks` fabricates five mock results out
of an empty store — the batch does not fail. -/
theorem c3_mock_fallback_counterexample :
    embErrCtx.mockMode = false
    ∧ generateChunkEmbeddings embErrCtx [⟨"text"⟩] = [⟨⟨"text"⟩, some [1]⟩]
    ∧ generateQueryEmbedding embErrCtx "query" = [2]
    ∧ vsErrCtx.mockMode = false
    ∧ vsErrCtx.db = []
    ∧ (searchSimilarChunks vsErrCtx none 5 0).length = 5 :=
  ⟨rfl, rfl, rfl, rfl, rfl, rfl⟩

/-- C3, amended.  On a provider-level failure (the bridge call throws)
with mock mode off, the embedding operations do not fail: they
substitute mock embeddings for every chunk and for the query, and vector
search returns the canned mock result list (of length `min topK 8`)
regardless of the store's contents. -/
theorem c3_error_paths_yield_mock (ctx : EmbCtx) (vctx : VSCtx)
    (chunks : List JChunk) (query : String) (documentId : Option String)
    (topK : Nat) (scoreThreshold : ℚ)
    (hm : ctx.mockMode = false) (hb : ctx.bridgeOk = false)
    (hvm : vctx.mockMode = false) (hvb : vctx.bridgeOk = false) :
    generateChunkEmbeddings ctx chunks = attachMockEmbeddings ctx chunks
    ∧ generateQueryEmbedding ctx query = ctx.mockQuery
    ∧ searchSimilarChunks vctx documentId topK scoreThreshold
        = mockSearchResults documentId topK
    ∧ (mockSearchResults documentId topK).length = min topK 8 := by
  refine ⟨?_, ?_, ?_, ?_⟩
  · simp [generateChunkEmbeddings, hm, hb]
  · simp [generateQueryEmbedding, hm, hb]
  · simp [searchSimilarChunks, hvm, hvb]
  · simp [mockSearchResults, mockContent]

/-- C3, witness for the amended theorem at the concrete failing
contexts. -/
theorem c3_error_paths_yield_mock_witness :
    (embErrCtx.mockMode = false ∧ embErrCtx.bridgeOk = false
      ∧ vsErrCtx.mockMode = false ∧ vsErrCtx.bridgeOk = false)
    ∧ (generateChunkEmbeddings embErrCtx [⟨"t"⟩] = attachMockEmbeddings embErrCtx [⟨"t"⟩]
      ∧ generateQueryEmbedding embErrCtx "q" = embErrCtx.mockQuery
      ∧ searchSimilarChunks vsErrCtx none 3 0 = mockSearchResults none 3
      ∧ (mockSearchResults none 3).length = min 3 8) :=
  ⟨⟨rfl, rfl, rfl, rfl⟩,
    c3_error_paths_yield_mock embErrCtx vsErrCtx [⟨"t"⟩] "q" none 3 0 rfl rfl rfl rfl⟩

theorem mem_insertScore (p : QPoint) (l : List QPoint) :
    ∀ q, q ∈ insertScore p l ↔ q = p ∨ q ∈ l := by
  induction l with
  | nil => intro q; simp [insertScore]
  | cons a rest ih =>
    intro q
    simp only [insertScore]
    by_cases hs : p.score ≤ a.score
    · rw [if_pos hs]
      simp only [List.mem_cons, ih q]
      tauto
    · rw [if_neg hs]
      simp [List.mem_cons]

theorem mem_sortByScoreDesc (l : List QPoint) :
    ∀ q, q ∈ sortByScoreDesc l ↔ q ∈ l := by
  induction l with
  | nil => intro q; simp [sortByScoreDesc]
  | cons a rest ih =>
    intro q
    show q ∈ insertScore a (sortByScoreDesc rest) ↔ _
    rw [mem_insertScore, ih q]
    simp

theorem length_insertScore (p : QPoint) (l : List QPoint) :
    (insertScore p l).length = l.length + 1 := by
  induction l with
  | nil => rfl
  | cons a rest ih =>
    simp only [insertScore]
    by_cases hs : p.score ≤ a.score
    · rw [if_pos hs]
      simp [ih]
    · rw [if_neg hs]
      simp

theorem length_sortByScoreDesc (l : List QPoint) :
    (sortByScoreDesc l).length = l.length := by
  induction l with
  | nil => rfl
  | cons a rest ih =>
    show (insertScore a (sortByScoreDesc rest)).length = _
    rw [length_insertScore, ih]
    simp

theorem filter_passesThreshold_none (l : List QPoint) :
    l.filter (passesThreshold none) = l := by
  induction l with
  | nil => rfl
  | cons a rest ih => simp [List.filter, passesThreshold, ih]

/-- C7, counterexample.  The default score threshold of
`VectorDatabaseService.searchSimilar` is 0.7, not a permissive 0: a
stored point scoring 1/2 that matches the (absent) filter is silently
excluded under the default options. -/
theorem c7_default_threshold_counterexample :
    defaultSearchOptions.scoreThreshold = 7 / 10
    ∧ ¬ defaultSearchOptions.scoreThreshold = 0
    ∧ searchSimilar [c7Point] defaultSearchOptions = [] := by
  refine ⟨rfl, by norm_num [defaultSearchOptions], ?_⟩
  have hno : ¬ ((7 : ℚ) / 10 ≤ 2⁻¹) := by norm_num
  simp [searchSimilar, qdrantSearch, defaultSearchOptions, sortByScoreDesc,
    matchesDoc, passesThreshold, c7Point, hno]

/-- C7, amended.  Vector similarity search does exclude every hit scoring
below the threshold it passes; `searchSimilarChunks` omits the threshold
argument when it is 0, so a threshold of 0 excludes nothing by score and
only `topK` bounds the result (every document-matching point, negative
scores included, is returned when `topK` is large enough); but the
default threshold of `VectorDatabaseService.searchSimilar` is 0.7, which
does drop hits scoring below 0.7. -/
theorem c7_score_threshold_behaviour (db : List QPoint) (opts : SearchOptions)
    (ctx : VSCtx) (documentId : Option String) (topK : Nat)
    (hm : ctx.mockMode = false) (hb : ctx.bridgeOk = true) :
    (∀ p ∈ searchSimilar db opts, opts.scoreThreshold ≤ p.score)
    ∧ searchSimilarChunks ctx documentId topK 0
        = qdrantSearch ctx.db topK none documentId
    ∧ (∀ limit docF p, p ∈ db → matchesDoc docF p = true →
        (db.filter (matchesDoc docF)).length ≤ limit →
        p ∈ qdrantSearch db limit none docF)
    ∧ defaultSearchOptions.scoreThreshold = 7 / 10 := by
  refine ⟨?_, ?_, ?_, rfl⟩
  · intro p hp
    unfold searchSimilar qdrantSearch at hp
    have h1 := List.mem_of_mem_take hp
    rw [mem_sortByScoreDesc] at h1
    have h2 := List.of_mem_filter h1
    simp only [passesThreshold, decide_eq_true_eq] at h2
    exact h2
  · simp [searchSimilarChunks, hm, hb]
  · intro limit docF p hp hmatch hlen
    unfold qdrantSearch
    rw [filter_passesThreshold_none,
      List.take_of_length_le (by rw [length_sortByScoreDesc]; exact hlen)]
    rw [mem_sortByScoreDesc]
    exact List.mem_filter.mpr ⟨hp, hmatch⟩

/-- C7, witness: with the bridge healthy and threshold 0, even a
negative-scoring point of the store is returned. -/
theorem c7_score_threshold_behaviour_witness :
    (∀ p ∈ searchSimilar [c7NegPoint] defaultSearchOptions,
      defaultSearchOptions.scoreThreshold ≤ p.score)
    ∧ searchSimilarChunks ⟨false, true, [c7NegPoint]⟩ none 5 0
        = qdrantSearch [c7NegPoint] 5 none none
    ∧ c7NegPoint ∈ qdrantSearch [c7NegPoint] 5 none none := by
  have h := c7_score_threshold_behaviour [c7NegPoint] defaultSearchOptions
    ⟨false, true, [c7NegPoint]⟩ none 5 rfl rfl
  exact ⟨h.1, h.2.1, h.2.2.1 5 none c7NegPoint (by simp) rfl (by simp [matchesDoc])⟩

theorem removeDupGo_nodup (l : List QPoint) :
    ∀ seen, ((removeDupGo seen l).map (fun c => c.id)).Nodup
      ∧ ∀ x ∈ removeDupGo seen l, x.id ∉ seen := by
  induction l with
  | nil => intro seen; exact ⟨List.nodup_nil, by simp [removeDupGo]⟩
  | cons c rest ih =>
    intro seen
    simp only [removeDupGo]
    by_cases hc : c.id ∈ seen
    · rw [if_pos hc]
      exact ⟨(ih seen).1, fun x hx => (ih seen).2 x hx⟩
    · rw [if_neg hc]
      constructor
      · simp only [List.map_cons, List.nodup_cons]
        refine ⟨?_, (ih (c.id :: seen)).1⟩
        intro hmem
        obtain ⟨x, hx, hxid⟩ := List.mem_map.mp hmem
        exact (ih (c.id :: seen)).2 x hx (by rw [hxid]; exact List.mem_cons_self _ _)
      · intro x hx
        rcases List.mem_cons.mp hx with h | h
        · rw [h]; exact hc
        · intro hxs
          exact (ih (c.id :: seen)).2 x h (List.mem_cons_of_mem _ hxs)

/-- C8, confirmed.  With no custom query, `_getRelevantContent` runs each
of the four generic probe queries for `ceil(topK/4)` results,
concatenates the per-query results in query order, deduplicates by chunk
id keeping the first occurrence, and truncates to `topK`; consequently
the returned list has no duplicate chunk ids and length at most `topK`. -/
theorem c8_generic_retrieval (search : String → Option String → Nat → List QPoint)
    (documentId : Option String) (topK : Nat) :
    getRelevantContent search documentId "" topK
      = (removeDuplicateChunks
          ((generalQueries.map
            (fun q => search q documentId ((topK + 3) / 4))).flatten)).take topK
    ∧ ((getRelevantContent search documentId "" topK).map (fun c => c.id)).Nodup
    ∧ (getRelevantContent search documentId "" topK).length ≤ topK := by
  have he : getRelevantContent search documentId "" topK
      = (removeDuplicateChunks
          ((generalQueries.map
            (fun q => search q documentId ((topK + 3) / 4))).flatten)).take topK := by
    unfold getRelevantContent
    simp
  refine ⟨he, ?_, ?_⟩
  · rw [he, List.map_take]
    exact List.Sublist.nodup (List.take_sublist _ _)
      (removeDupGo_nodup _ []).1
  · rw [he, List.length_take]
    exact min_le_left _ _

/-- C9, counterexample.  Query texts are not truncated before the query
marker is attached: a 2049-character query (2049 > 4 × 512 = 2048)
passes through `generateQueryEmbedding` whole, so the prepared text
exceeds the prefix length plus the claimed character cap. -/
theorem c9_query_truncation_counterexample :
    (preparedQueryText c9LongQuery).length = queryMarker.length + 2049
    ∧ embeddingMaxTokens * 4 = 2048
    ∧ queryMarker.length + embeddingMaxTokens * 4
        < (preparedQueryText c9LongQuery).length := by
  have h1 : (preparedQueryText c9LongQuery).length = queryMarker.length + 2049 := by
    unfold preparedQueryText c9LongQuery
    rw [List.length_append, List.length_replicate]
  refine ⟨h1, rfl, ?_⟩
  rw [h1]
  norm_num [embeddingMaxTokens]

/-- C9, amended.  Passage texts are truncated to at most
`4 × maxTokens = 2048` characters and then prefixed with the passage
marker (`prepareTextForEmbedding` always starts with `"passage: "` and
never exceeds the marker plus 2048 characters); query texts are prefixed
with the distinct query marker without any truncation. -/
theorem c9_marker_and_truncation (text query : Str) :
    (prepareTextForEmbedding text).take passageMarker.length = passageMarker
    ∧ (prepareTextForEmbedding text).length
        ≤ passageMarker.length + embeddingMaxTokens * 4
    ∧ preparedQueryText query = queryMarker ++ query
    ∧ passageMarker ≠ queryMarker := by
  refine ⟨?_, ?_, rfl, by decide⟩
  · unfold prepareTextForEmbedding
    exact List.take_left _ _
  · unfold prepareTextForEmbedding
    rw [List.length_append]
    by_cases h : text.length > embeddingMaxTokens * 4
    · rw [if_pos h]
      refine Nat.add_le_add_left ?_ _
      rw [List.length_take]
      exact min_le_left _ _
    · rw [if_neg h]
      push_neg at h
      exact Nat.add_le_add_left h _

theorem mem_insertHit (h : Hit) (l : List Hit) :
    ∀ g, g ∈ insertHit h l ↔ g = h ∨ g ∈ l := by
  induction l with
  | nil => intro g; simp [insertHit]
  | cons a rest ih =>
    intro g
    simp only [insertHit]
    by_cases hs : h.score < a.score ∨ (h.score = a.score ∧ a.ordinal ≤ h.ordinal)
    · rw [if_pos hs]
      simp only [List.mem_cons, ih g]
      tauto
    · rw [if_neg hs]
      simp [List.mem_cons]

theorem mem_sortHits (l : List Hit) :
    ∀ g, g ∈ sortHits l ↔ g ∈ l := by
  induction l with
  | nil => intro g; simp [sortHits]
  | cons a rest ih =>
    intro g
    show g ∈ insertHit a (sortHits rest) ↔ _
    rw [mem_insertHit, ih g]
    simp

/-- C2, confirmed (merge modelled from the spec, §4.5).  In the merged
hybrid result, a chunk id present in both the dense and the lexical
result sets is ranked strictly above every chunk id present in exactly
one of them: all "both"-tier hits precede all single-source hits. -/
theorem c2_both_tier_ranks_first (dense lex : List Hit) (a b : String)
    (haD : ∃ h ∈ dense, h.id = a) (haL : ∃ h ∈ lex, h.id = a)
    (hbOne : ((∃ h ∈ dense, h.id = b) ∧ ¬(∃ h ∈ lex, h.id = b))
      ∨ ((∃ h ∈ lex, h.id = b) ∧ ¬(∃ h ∈ dense, h.id = b))) :
    List.findIdx (fun h => h.id = a) (hybridMergeAll dense lex)
      < List.findIdx (fun h => h.id = b) (hybridMergeAll dense lex) := by
  have hmerge : hybridMergeAll dense lex
      = sortHits (dense.filter (fun h => lex.any (fun g => g.id = h.id)))
        ++ sortHits ((dense.filter (fun h => !(lex.any (fun g => g.id = h.id))))
          ++ (lex.filter (fun g => !(dense.any (fun h => h.id = g.id))))) := rfl
  set bothTier := sortHits (dense.filter (fun h => lex.any (fun g => g.id = h.id)))
    with hbt
  set singles := sortHits ((dense.filter (fun h => !(lex.any (fun g => g.id = h.id))))
    ++ (lex.filter (fun g => !(dense.any (fun h => h.id = g.id))))) with hsg
  have hamem : ∃ h ∈ bothTier, (fun h : Hit => decide (h.id = a)) h = true := by
    obtain ⟨h0, hh0, hid0⟩ := haD
    obtain ⟨g0, hg0, hgid0⟩ := haL
    refine ⟨h0, ?_, by simp [hid0]⟩
    rw [hbt, mem_sortHits]
    refine List.mem_filter.mpr ⟨hh0, ?_⟩
    rw [List.any_eq_true]
    exact ⟨g0, hg0, by simp [hgid0, hid0]⟩
  have hbnot : ∀ x ∈ bothTier, (fun h : Hit => decide (h.id = b)) x = false := by
    intro x hx
    rw [hbt, mem_sortHits] at hx
    have hxd := List.mem_of_mem_filter hx
    have hxp := List.of_mem_filter hx
    simp only [decide_eq_false_iff_not]
    intro hxb
    rw [List.any_eq_true] at hxp
    obtain ⟨g0, hg0, hgid0⟩ := hxp
    simp only [decide_eq_true_eq] at hgid0
    rcases hbOne with ⟨_, hnl⟩ | ⟨_, hnd⟩
    · exact hnl ⟨g0, hg0, by rw [hgid0, hxb]⟩
    · exact hnd ⟨x, hxd, hxb⟩
  have hidxa : List.findIdx (fun h : Hit => decide (h.id = a)) (bothTier ++ singles)
      < bothTier.length := by
    rw [List.findIdx_append]
    have := List.findIdx_lt_length_of_exists hamem
    rw [if_pos this]
    exact this
  have hidxb : bothTier.length
      ≤ List.findIdx (fun h : Hit => decide (h.id = b)) (bothTier ++ singles) := by
    rw [List.findIdx_append]
    have heq : List.findIdx (fun h : Hit => decide (h.id = b)) bothTier
        = bothTier.length :=
      List.findIdx_eq_length.mpr hbnot
    rw [if_neg (by rw [heq]; exact lt_irrefl _)]
    omega
  rw [hmerge]
  exact lt_of_lt_of_le hidxa hidxb

/-- C2, witness: with dense = {x, y} and lexical = {x}, the shared id x
ranks strictly above the dense-only id y in the merged list. -/
theorem c2_both_tier_ranks_first_witness :
    (∃ h ∈ c2Dense, h.id = "x") ∧ (∃ h ∈ c2Lex, h.id = "x")
    ∧ ((∃ h ∈ c2Dense, h.id = "y") ∧ ¬(∃ h ∈ c2Lex, h.id = "y"))
    ∧ List.findIdx (fun h => h.id = "x") (hybridMergeAll c2Dense c2Lex)
        < List.findIdx (fun h => h.id = "y") (hybridMergeAll c2Dense c2Lex) :=
  ⟨by decide, by decide, ⟨by decide, by decide⟩,
    c2_both_tier_ranks_first c2Dense c2Lex "x" "y" (by decide) (by decide)
      (Or.inl ⟨by decide, by decide⟩)⟩
